import Mathlib

/-!
Verification of the octopus-reader document model
(`src/octopus-reader/src/nodes/page.ts` and
`src/octopus-reader/src/utils/memoize-utils.ts`).

The TypeScript classes `Page`, `Artboard` and `Layer` are shallowly embedded
as pure Lean functions over explicit state values.  JavaScript `undefined` /
`null` string fields are modelled as `Option String`; JS truthiness on such
fields (`x || y`, `Boolean(x)`, `x ? a : b`) treats both `none` and `some ""`
as falsy, which the helpers below reproduce.  Depth arguments (`number`,
possibly `Infinity`) are modelled by `JsDepth`.

Parts of the repository that the claims depend on but whose sources are not
available (the `Design` class, `LayerCollection.flatten`/lookups, the layer
factory `createFlattenedLayers`, and the asset helpers
`keepUniqueBitmapAssetDescriptors` / `getLayerBitmapAssets`) are modelled
from the specification; each such definition carries a doc comment starting
with `Modelled from the spec:`.
-/

namespace OctopusReader

/-- JS depth values: a non-negative number or `Infinity`. -/
inductive JsDepth : Type where
  | num (n : Nat)
  | inf
deriving DecidableEq

/-- JS `options.depth || dflt`: `undefined` and `0` are falsy and yield the
default; any positive number or `Infinity` is kept. -/
def jsOrDepth (o : Option JsDepth) (dflt : JsDepth) : JsDepth :=
  match o with
  | some d => if d = .num 0 then dflt else d
  | none => dflt

/-- JS `depth - 1` on the depth values reachable in the source.  `num 0` maps
to `num 0`: in JS `0 - 1 = -1` and every further value stays `≠ 1`, which is
extensionally the same as staying at `num 0` here (the only test performed on
a depth during recursion is `depth === 1`). -/
def JsDepth.dec : JsDepth → JsDepth
  | .num (n + 1) => .num n
  | .num 0 => .num 0
  | .inf => .inf

/-- JS `depth + 1` (`Infinity + 1 = Infinity`). -/
def JsDepth.inc : JsDepth → JsDepth
  | .num n => .num (n + 1)
  | .inf => .inf

/-- JS truthiness of a `string | null | undefined` value: `null`, `undefined`
and the empty string are falsy. -/
def jsTruthyStr (o : Option String) : Bool :=
  match o with
  | some s => !(s == "")
  | none => false

/-- JS `x || null` on a `string | null | undefined` value. -/
def jsOrNullStr (o : Option String) : Option String :=
  if jsTruthyStr o then o else none

/-- JS `x || y` on `string | null | undefined` values. -/
def jsOrStr (x y : Option String) : Option String :=
  if jsTruthyStr x then x else y

/-- One layer of raw octopus content (`LayerOctopusData`): its id, the
`symbolID` and `documentId` component references, the bitmap-asset keys the
layer itself references (abstracting the bitmap placement data inspected by
`getLayerBitmapAssets`), and the nested layer data list. -/
inductive LayerData : Type where
  | mk (id : String) (symbolID : Option String) (documentId : Option String)
      (bitmaps : List String) (layers : List LayerData)

def LayerData.id : LayerData → String
  | .mk i _ _ _ _ => i

def LayerData.symbolID : LayerData → Option String
  | .mk _ s _ _ _ => s

def LayerData.documentId : LayerData → Option String
  | .mk _ _ d _ _ => d

def LayerData.bitmaps : LayerData → List String
  | .mk _ _ _ b _ => b

def LayerData.layers : LayerData → List LayerData
  | .mk _ _ _ _ ls => ls

/-- An artboard's octopus document: its `symbolID` and root layer data list
(the `bounds`/`frame` fields are not touched by any claim). -/
structure OctopusDocument : Type where
  symbolID : Option String
  layers : List LayerData

/-- `ArtboardManifestData` with exactly the fields read or written by
`Artboard._createManifest`. -/
structure ArtboardManifestData : Type where
  artboard_original_id : String
  artboard_name : Option String
  is_symbol : Bool
  symbol_id : Option String
  page_original_id : Option String
  page_name : Option String
  failed : Bool
  url : Option String
  preview_url : Option String
deriving DecidableEq

/-- The `params` argument of `_createManifest`.  The outer `Option` is JS
`undefined` (field absent, destructuring default applies), the inner
`Option` is JS `null`. -/
structure ManifestParams : Type where
  id : String
  pageId : Option (Option String) := none
  componentId : Option (Option String) := none
  name : Option (Option String) := none

/-- A design's page table: `(page id, page name)` pairs.
Modelled from the spec: the `Design` class itself is not among the sources;
"Design owns a mapping from page-id to Page", and `getPageById` is an
identity lookup returning a not-found result as an empty value. -/
def getPageById (pages : List (String × Option String)) (pageId : String) :
    Option (String × Option String) :=
  pages.find? (fun p => p.1 == pageId)

/-- `Artboard._createManifest(prevManifest, octopus, params)`.  The
`design` argument stands for `this._design`'s page table (`none` when the
artboard is detached from a design). -/
def createManifest (design : Option (List (String × Option String)))
    (prevManifest : Option ArtboardManifestData) (octopus : Option OctopusDocument)
    (params : ManifestParams) : ArtboardManifestData :=
  let pageId : Option String := params.pageId.getD (prevManifest.bind (·.page_original_id))
  let componentId : Option String := params.componentId.getD
    (jsOrStr (octopus.bind (·.symbolID)) (prevManifest.bind (·.symbol_id)))
  let name : Option String := params.name.getD (prevManifest.bind (·.artboard_name))
  let page : Option (String × Option String) :=
    match design with
    | some pages =>
      match jsOrNullStr pageId with
      | some pid => getPageById pages pid
      | none => none
    | none => none
  let base : ArtboardManifestData := prevManifest.getD
    ⟨"", none, false, none, none, none, false, none, none⟩
  { artboard_original_id := params.id
    artboard_name := jsOrNullStr name
    is_symbol := jsTruthyStr componentId
    symbol_id := jsOrNullStr componentId
    page_original_id := if jsTruthyStr pageId then pageId else base.page_original_id
    page_name :=
      if jsTruthyStr pageId then
        jsOrNullStr (jsOrStr (page.bind (·.2))
          (if pageId == prevManifest.bind (·.page_original_id) then
            prevManifest.bind (·.page_name)
          else none))
      else base.page_name
    failed := base.failed
    url := base.url
    preview_url := base.preview_url }

/-- A flattened-view layer as produced by the layer factories: the created
`Layer` object's octopus data and `parentLayerId`.  The `level` field records
the 1-based structural nesting level at which the layer was created; it is
bookkeeping for the depth theorems and is never consulted by any operation. -/
structure FlatLayer : Type where
  level : Nat
  parentLayerId : Option String
  data : LayerData

mutual

/-- Modelled from the spec: `createFlattenedLayers` (layer-factories-utils,
not among the sources) produces the depth-first document-order expansion of
one layer's subtree down to `depth` remaining levels (`depth === 1` stops
after the layer itself; the created child layers carry `parentLayerId`). -/
def flattenTo (depth : JsDepth) (level : Nat) (parent : Option String) :
    LayerData → List FlatLayer
  | .mk i s d b children =>
    ⟨level, parent, .mk i s d b children⟩ ::
      (if depth = .num 1 then []
       else flattenToList depth.dec (level + 1) (some i) children)

/-- Depth-first document-order expansion of a layer data list: each entry's
subtree is exhausted before the next entry. -/
def flattenToList (depth : JsDepth) (level : Nat) (parent : Option String) :
    List LayerData → List FlatLayer
  | [] => []
  | c :: cs => flattenTo depth level parent c ++ flattenToList depth level parent cs

end

/-- `this._octopus?.['layers'] || []`. -/
def layersOf : Option OctopusDocument → List LayerData
  | some o => o.layers
  | none => []

/-- The pure computation inside `Artboard.getRootLayers`:
`createLayers(this._octopus?.['layers'] || [], { artboard: this })` wrapped
in a collection — one layer per root layer datum, with no parent layer id. -/
def computeRootLayers (octopus : Option OctopusDocument) : List FlatLayer :=
  (layersOf octopus).map (fun l => ⟨1, none, l⟩)

/-- Options records of shape `Partial<{ depth: number }>` (a present `depth`
field holding `undefined` is not modelled). -/
structure DepthOptions : Type where
  depth : Option JsDepth := none
deriving DecidableEq

/-- The pure computation inside `Artboard.getFlattenedLayers`:
`options.depth || Infinity`, then `createFlattenedLayers`. -/
def computeFlattenedLayers (octopus : Option OctopusDocument)
    (options : DepthOptions) : List FlatLayer :=
  flattenToList (jsOrDepth options.depth .inf) 1 none (layersOf octopus)

/-- JS values appearing as memoizer arguments at the call sites under
study: `undefined`, numbers (depths), and plain records.  Arrays never occur
as argument values there, so they are not represented. -/
inductive JsVal : Type where
  | undef
  | numV (d : JsDepth)
  | obj (fields : List (String × JsVal))

/-- JS `===` on the argument values above.  Two `obj` values are compared by
object identity in JS; the memoizer only ever compares an incoming argument
object against a previously stored distinct object, so distinct-literal
comparison (`false`) is the faithful model at these call sites. -/
def jsStrictEq : JsVal → JsVal → Bool
  | .undef, .undef => true
  | .numV a, .numV b => a == b
  | _, _ => false

/-- `key in o` / `o[key]` lookup. -/
def jsLookup (fields : List (String × JsVal)) (key : String) : Option JsVal :=
  (fields.find? (fun f => f.1 == key)).map (·.2)

/-- `shallowEqual` / `shallowEqualObjects` of memoize-utils: records are
compared field-wise (`[...Object.keys(a), ...Object.keys(b)].every(...)`),
everything else by `===`.  Fields are compared by `===` when `depth <= 1`
and by a recursive `shallowEqual` at `depth - 1` otherwise; the `depth <= 1`
test is split over the `0`/`1` patterns of `shallowEqual` below. -/
def shallowEqualFields (cmp : JsVal → JsVal → Bool) (fa fb : List (String × JsVal)) : Bool :=
  (fa.map (·.1) ++ fb.map (·.1)).all (fun key =>
    match jsLookup fa key, jsLookup fb key with
    | some va, some vb => cmp va vb
    | _, _ => false)

def shallowEqual : Nat → JsVal → JsVal → Bool
  | 0, .obj fa, .obj fb => shallowEqualFields jsStrictEq fa fb
  | 0, a, b => jsStrictEq a b
  | 1, .obj fa, .obj fb => shallowEqualFields jsStrictEq fa fb
  | 1, a, b => jsStrictEq a b
  | d + 2, .obj fa, .obj fb => shallowEqualFields (shallowEqual (d + 1)) fa fb
  | _ + 2, a, b => jsStrictEq a b

/-- `shallowEqualArrays` of memoize-utils: element-wise over the longer
length (a missing element reads as `undefined`). -/
def shallowEqualArrays (a b : List JsVal) (depth : Nat) : Bool :=
  (List.range (max a.length b.length)).all (fun i =>
    if depth ≤ 1 then jsStrictEq (a.getD i .undef) (b.getD i .undef)
    else shallowEqual (depth - 1) (a.getD i .undef) (b.getD i .undef))

/-- The `memoize(fn, 2)` cache lookup for `getFlattenedLayers`: the first
cache entry whose stored argument list is `shallowEqualArrays`-equal (at
depth 2) to the incoming argument list. -/
def memoFind (cache : List (List JsVal × List FlatLayer)) (key : List JsVal) :
    Option (List FlatLayer) :=
  (cache.find? (fun entry => shallowEqualArrays key entry.1 2)).map (·.2)

/-- The JS value of a `Partial<{ depth: number }>` options object. -/
def encodeOptions (o : DepthOptions) : JsVal :=
  match o.depth with
  | none => .obj []
  | some d => .obj [("depth", .numV d)]

/-- The memoizer's `args` array for a `getFlattenedLayers` call:
`getFlattenedLayers()` passes no arguments at all. -/
def encodeCall : Option DepthOptions → List JsVal
  | none => []
  | some o => [encodeOptions o]

/-- The `Artboard` state: its manifest, optional octopus content, and the
two per-instance memoizer caches of `getRootLayers` / `getFlattenedLayers`.
The back-reference `this._design` is passed explicitly (as the design's page
table) to the operations that consult it. -/
structure Artboard : Type where
  manifest : ArtboardManifestData
  octopus : Option OctopusDocument := none
  rootLayersCache : Option (List FlatLayer) := none
  flattenedLayersCache : List (List JsVal × List FlatLayer) := []

def Artboard.id (a : Artboard) : String :=
  a.manifest.artboard_original_id

def Artboard.componentId (a : Artboard) : Option String :=
  jsOrNullStr a.manifest.symbol_id

def Artboard.pageId (a : Artboard) : Option String :=
  jsOrNullStr a.manifest.page_original_id

def Artboard.name (a : Artboard) : Option String :=
  jsOrNullStr a.manifest.artboard_name

def Artboard.getManifest (a : Artboard) : ArtboardManifestData :=
  a.manifest

def Artboard.isLoaded (a : Artboard) : Bool :=
  a.octopus.isSome

def Artboard.getOctopus (a : Artboard) : Option OctopusDocument :=
  a.octopus

/-- `Artboard.unload`: `this._octopus = null` and nothing else. -/
def Artboard.unload (a : Artboard) : Artboard :=
  { a with octopus := none }

/-- `Artboard.setManifest`: rejects a manifest whose `artboard_original_id`
differs from the current id, otherwise rebuilds the stored manifest from the
new one via `_createManifest`. -/
def Artboard.setManifest (design : Option (List (String × Option String)))
    (a : Artboard) (nextManifest : ArtboardManifestData) : Except String Artboard :=
  if nextManifest.artboard_original_id ≠ a.id then
    .error "Cannot replace existing artboard ID"
  else
    .ok { a with manifest := createManifest design (some nextManifest) a.octopus ⟨a.id, none, none, none⟩ }

/-- `Artboard.setOctopus`: stores the new content, rebuilds the manifest
from it, and clears both derived-view caches. -/
def Artboard.setOctopus (design : Option (List (String × Option String)))
    (a : Artboard) (nextOctopus : OctopusDocument) : Artboard :=
  { manifest := createManifest design (some a.manifest) (some nextOctopus) ⟨a.id, none, none, none⟩
    octopus := some nextOctopus
    rootLayersCache := none
    flattenedLayersCache := [] }

/-- `Artboard.setPage`: rebuilds the manifest with the new page id. -/
def Artboard.setPage (design : Option (List (String × Option String)))
    (a : Artboard) (nextPageId : String) : Artboard :=
  { a with manifest := createManifest design (some a.manifest) a.octopus ⟨a.id, some (some nextPageId), none, none⟩ }

/-- `Artboard.getRootLayers`, a `memoize`d zero-argument accessor: its cache
holds at most the one result (every call has the empty argument list, which
is `shallowEqualArrays`-equal to itself). -/
def Artboard.getRootLayers (a : Artboard) : List FlatLayer × Artboard :=
  match a.rootLayersCache with
  | some cached => (cached, a)
  | none =>
    let result := computeRootLayers a.octopus
    (result, { a with rootLayersCache := some result })

/-- `Artboard.getFlattenedLayers`, `memoize`d at comparison depth 2: a cache
hit returns the stored collection unchanged, a miss computes the collection
and appends a cache entry keyed by the raw argument list. -/
def Artboard.getFlattenedLayers (a : Artboard) (callOptions : Option DepthOptions) :
    List FlatLayer × Artboard :=
  let key := encodeCall callOptions
  match memoFind a.flattenedLayersCache key with
  | some cached => (cached, a)
  | none =>
    let result := computeFlattenedLayers a.octopus (callOptions.getD ⟨none⟩)
    (result, { a with flattenedLayersCache := a.flattenedLayersCache ++ [(key, result)] })

/-- C5: `setManifest(nextManifest)` raises an error if and only if the new
manifest's `artboard_original_id` differs from the artboard's current id;
when the ids match it replaces the stored manifest (rebuilt from
`nextManifest` by `_createManifest`) and the artboard's id is unchanged. -/
theorem setManifest_id_immutable (design : Option (List (String × Option String)))
    (a : Artboard) (m : ArtboardManifestData) :
    (Artboard.setManifest design a m = .error "Cannot replace existing artboard ID" ↔
      m.artboard_original_id ≠ a.id) ∧
    (∀ a2 : Artboard, Artboard.setManifest design a m = .ok a2 →
      a2.id = a.id ∧
      a2.getManifest = createManifest design (some m) a.octopus ⟨a.id, none, none, none⟩) := by
  by_cases hid : m.artboard_original_id = a.id
  · have he : Artboard.setManifest design a m =
        .ok { a with manifest := createManifest design (some m) a.octopus ⟨a.id, none, none, none⟩ } := by
      rw [Artboard.setManifest, if_neg (not_not_intro hid)]
    refine ⟨?_, ?_⟩
    · rw [he]
      exact ⟨fun h => Except.noConfusion h, fun hne => absurd hid hne⟩
    · intro a2 h
      rw [he] at h
      injection h with h2
      subst h2
      exact ⟨rfl, rfl⟩
  · have he : Artboard.setManifest design a m = .error "Cannot replace existing artboard ID" := by
      rw [Artboard.setManifest, if_pos hid]
    refine ⟨?_, ?_⟩
    · rw [he]
      exact ⟨fun _ => hid, fun _ => rfl⟩
    · intro a2 h
      rw [he] at h
      exact Except.noConfusion h

def manifestW (aid : String) : ArtboardManifestData :=
  ⟨aid, some "Board", false, none, some "p1", some "Page 1", false, none, none⟩

def artboardW : Artboard :=
  { manifest := manifestW "a1", octopus := some ⟨none, []⟩ }

def artboardWnext : Artboard :=
  { artboardW with
    manifest := createManifest none (some (manifestW "a1")) artboardW.octopus ⟨artboardW.id, none, none, none⟩ }

/-- Witness for C5 at concrete inputs: a mismatching manifest is rejected
and a matching one preserves the artboard id. -/
theorem setManifest_id_immutable_witness :
    Artboard.setManifest none artboardW (manifestW "other") =
      .error "Cannot replace existing artboard ID" ∧
    artboardWnext.id = artboardW.id :=
  ⟨(setManifest_id_immutable none artboardW (manifestW "other")).1.mpr (by decide),
   ((setManifest_id_immutable none artboardW (manifestW "a1")).2 artboardWnext rfl).1⟩

/-- C8: on a loaded artboard, `unload()` makes `isLoaded()` false and
`getOctopus()` nothing while leaving the manifest — and hence `id`,
`pageId`, `componentId` and `name` — exactly as they were. -/
theorem unload_retains_manifest (a : Artboard) (_loaded : a.isLoaded = true) :
    a.unload.isLoaded = false ∧
    a.unload.getOctopus = none ∧
    a.unload.getManifest = a.getManifest ∧
    a.unload.id = a.id ∧
    a.unload.pageId = a.pageId ∧
    a.unload.componentId = a.componentId ∧
    a.unload.name = a.name :=
  ⟨rfl, rfl, rfl, rfl, rfl, rfl, rfl⟩

/-- Witness for C8 at a concrete loaded artboard. -/
theorem unload_retains_manifest_witness :
    artboardW.unload.isLoaded = false ∧
    artboardW.unload.getManifest = artboardW.getManifest :=
  ⟨(unload_retains_manifest artboardW rfl).1,
   (unload_retains_manifest artboardW rfl).2.2.1⟩

theorem getRootLayers_cacheNone (a : Artboard) (h : a.rootLayersCache = none) :
    a.getRootLayers =
      (computeRootLayers a.octopus,
       { a with rootLayersCache := some (computeRootLayers a.octopus) }) := by
  simp only [Artboard.getRootLayers, h]

theorem getRootLayers_cacheSome (a : Artboard) (r : List FlatLayer)
    (h : a.rootLayersCache = some r) : a.getRootLayers = (r, a) := by
  simp only [Artboard.getRootLayers, h]

theorem getFlattenedLayers_cacheMiss (a : Artboard) (c : Option DepthOptions)
    (h : memoFind a.flattenedLayersCache (encodeCall c) = none) :
    a.getFlattenedLayers c =
      (computeFlattenedLayers a.octopus (c.getD ⟨none⟩),
       { a with flattenedLayersCache := a.flattenedLayersCache ++
          [(encodeCall c, computeFlattenedLayers a.octopus (c.getD ⟨none⟩))] }) := by
  simp only [Artboard.getFlattenedLayers, h]

theorem getFlattenedLayers_cacheHit (a : Artboard) (c : Option DepthOptions)
    (r : List FlatLayer) (h : memoFind a.flattenedLayersCache (encodeCall c) = some r) :
    a.getFlattenedLayers c = (r, a) := by
  simp only [Artboard.getFlattenedLayers, h]

/-- The encoded argument list of any `getFlattenedLayers` call compares
equal to itself under the memoizer's depth-2 shallow equality. -/
theorem shallowEqualArrays_encode_self (c : Option DepthOptions) :
    shallowEqualArrays (encodeCall c) (encodeCall c) 2 = true := by
  match c with
  | none => rfl
  | some ⟨none⟩ => rfl
  | some ⟨some d⟩ =>
    simp [shallowEqualArrays, shallowEqual, shallowEqualFields, jsStrictEq, jsLookup,
      List.find?, encodeCall, encodeOptions]

/-- After any `getFlattenedLayers` call, the resulting cache resolves the
same argument list to the returned collection. -/
theorem getFlattenedLayers_memo (a : Artboard) (c : Option DepthOptions) :
    memoFind (a.getFlattenedLayers c).2.flattenedLayersCache (encodeCall c) =
      some (a.getFlattenedLayers c).1 := by
  cases h : memoFind a.flattenedLayersCache (encodeCall c) with
  | some r => rw [getFlattenedLayers_cacheHit a c r h]; exact h
  | none =>
    rw [getFlattenedLayers_cacheMiss a c h]
    unfold memoFind at h ⊢
    rw [List.find?_append]
    have h2 : a.flattenedLayersCache.find?
        (fun entry => shallowEqualArrays (encodeCall c) entry.1 2) = none := by
      cases hf : a.flattenedLayersCache.find?
          (fun entry => shallowEqualArrays (encodeCall c) entry.1 2) with
      | none => rfl
      | some e => rw [hf] at h; simp at h
    rw [h2]
    simp [List.find?, shallowEqualArrays_encode_self c]

theorem getRootLayers_memo (a : Artboard) :
    a.getRootLayers.2.rootLayersCache = some a.getRootLayers.1 ∧
    a.getRootLayers.2.octopus = a.octopus ∧
    a.getRootLayers.2.flattenedLayersCache = a.flattenedLayersCache := by
  cases h : a.rootLayersCache with
  | none => rw [getRootLayers_cacheNone a h]; exact ⟨rfl, rfl, rfl⟩
  | some r => rw [getRootLayers_cacheSome a r h]; exact ⟨h, rfl, rfl⟩

theorem getFlattenedLayers_keeps_other_fields (a : Artboard) (c : Option DepthOptions) :
    (a.getFlattenedLayers c).2.rootLayersCache = a.rootLayersCache ∧
    (a.getFlattenedLayers c).2.octopus = a.octopus := by
  cases h : memoFind a.flattenedLayersCache (encodeCall c) with
  | none => rw [getFlattenedLayers_cacheMiss a c h]; exact ⟨rfl, rfl⟩
  | some r => rw [getFlattenedLayers_cacheHit a c r h]; exact ⟨rfl, rfl⟩

/-- C2: on a freshly loaded artboard (content `o`, empty caches), the
collections handed out before `setOctopus(o2)` are computed from `o` —
and, being values, later mutations cannot change them — while fresh
`getRootLayers()` / `getFlattenedLayers(options)` calls made after
`setOctopus(o2)` are computed from `o2`: `setOctopus` clears both
memoization caches, so stale derived views are never served. -/
theorem setOctopus_invalidates_caches (a : Artboard) (o o2 : OctopusDocument)
    (design : Option (List (String × Option String))) (c c2 : Option DepthOptions)
    (h1 : a.octopus = some o) (h2 : a.rootLayersCache = none)
    (h3 : a.flattenedLayersCache = []) :
    a.getRootLayers.1 = computeRootLayers (some o) ∧
    (a.getRootLayers.2.getFlattenedLayers c).1 =
      computeFlattenedLayers (some o) (c.getD ⟨none⟩) ∧
    ((a.getRootLayers.2.getFlattenedLayers c).2.setOctopus design o2).getRootLayers.1 =
      computeRootLayers (some o2) ∧
    (((a.getRootLayers.2.getFlattenedLayers c).2.setOctopus design o2).getFlattenedLayers c2).1 =
      computeFlattenedLayers (some o2) (c2.getD ⟨none⟩) := by
  obtain ⟨m, oct, rc, fc⟩ := a
  dsimp only at h1 h2 h3
  subst h1 h2 h3
  exact ⟨rfl, rfl, rfl, rfl⟩

/-- Witness for C2 at a concrete loaded artboard with distinct old and new
content. -/
theorem setOctopus_invalidates_caches_witness :
    artboardW.getRootLayers.1 = computeRootLayers (some ⟨none, []⟩) ∧
    ((artboardW.getRootLayers.2.getFlattenedLayers none).2.setOctopus none
        ⟨none, [.mk "r" none none [] []]⟩).getRootLayers.1 =
      computeRootLayers (some ⟨none, [.mk "r" none none [] []]⟩) :=
  ⟨(setOctopus_invalidates_caches artboardW ⟨none, []⟩ ⟨none, [.mk "r" none none [] []]⟩
      none none none rfl rfl rfl).1,
   (setOctopus_invalidates_caches artboardW ⟨none, []⟩ ⟨none, [.mk "r" none none [] []]⟩
      none none none rfl rfl rfl).2.2.1⟩

/-- C10: `unload()` does not clear the memoized layer caches: after
`getRootLayers()` / `getFlattenedLayers(options)` have been called on a
loaded artboard, the same calls made after `unload()` still return the
previously cached collections, even though `isLoaded()` is `false` and
`getOctopus()` is nothing. -/
theorem unload_keeps_stale_caches (a : Artboard) (o : OctopusDocument)
    (c : Option DepthOptions) (_loaded : a.octopus = some o) :
    (a.getRootLayers.2.getFlattenedLayers c).2.unload.isLoaded = false ∧
    (a.getRootLayers.2.getFlattenedLayers c).2.unload.getOctopus = none ∧
    (a.getRootLayers.2.getFlattenedLayers c).2.unload.getRootLayers.1 =
      a.getRootLayers.1 ∧
    ((a.getRootLayers.2.getFlattenedLayers c).2.unload.getFlattenedLayers c).1 =
      (a.getRootLayers.2.getFlattenedLayers c).1 := by
  refine ⟨rfl, rfl, ?_, ?_⟩
  · have hroot : (a.getRootLayers.2.getFlattenedLayers c).2.unload.rootLayersCache =
        some a.getRootLayers.1 := by
      show (a.getRootLayers.2.getFlattenedLayers c).2.rootLayersCache = _
      rw [(getFlattenedLayers_keeps_other_fields a.getRootLayers.2 c).1,
        (getRootLayers_memo a).1]
    rw [getRootLayers_cacheSome _ _ hroot]
  · have hhit : memoFind (a.getRootLayers.2.getFlattenedLayers c).2.unload.flattenedLayersCache
        (encodeCall c) = some (a.getRootLayers.2.getFlattenedLayers c).1 := by
      show memoFind (a.getRootLayers.2.getFlattenedLayers c).2.flattenedLayersCache
        (encodeCall c) = _
      exact getFlattenedLayers_memo a.getRootLayers.2 c
    rw [getFlattenedLayers_cacheHit _ c _ hhit]

def artboardFlat : Artboard :=
  { manifest := manifestW "f1"
    octopus := some ⟨none, [.mk "r" none none [] [.mk "c" none none [] []]]⟩ }

/-- Witness for C10: on a concrete loaded artboard with one root layer, the
collection served after `unload()` is the stale cached one — non-empty even
though the content is gone. -/
theorem unload_keeps_stale_caches_witness :
    (artboardFlat.getRootLayers.2.getFlattenedLayers none).2.unload.isLoaded = false ∧
    (artboardFlat.getRootLayers.2.getFlattenedLayers none).2.unload.getRootLayers.1 =
      artboardFlat.getRootLayers.1 ∧
    artboardFlat.getRootLayers.1.length = 1 :=
  ⟨(unload_keeps_stale_caches artboardFlat ⟨none, [.mk "r" none none [] [.mk "c" none none [] []]]⟩
      none rfl).1,
   (unload_keeps_stale_caches artboardFlat ⟨none, [.mk "r" none none [] [.mk "c" none none [] []]]⟩
      none rfl).2.2.1,
   rfl⟩

/-- C4 counterexample: after `getFlattenedLayers({depth: 0})`, the lookup
for `getFlattenedLayers({depth: Infinity})` misses the cache, and after the
three spellings (`{depth: 0}`, `{depth: Infinity}`, no argument) the cache
holds three distinct entries — the spellings do not hash/compare as a
single canonical memoization key and are not normalized before lookup. -/
theorem depth_spellings_not_single_cache_key :
    memoFind (artboardFlat.getFlattenedLayers (some ⟨some (.num 0)⟩)).2.flattenedLayersCache
        (encodeCall (some ⟨some .inf⟩)) = none ∧
    (((artboardFlat.getFlattenedLayers (some ⟨some (.num 0)⟩)).2.getFlattenedLayers
        (some ⟨some .inf⟩)).2.getFlattenedLayers none).2.flattenedLayersCache.length = 3 :=
  ⟨rfl, rfl⟩

/-- C4 as amended: `depth` unset, `0` and `Infinity` are all normalized to
unlimited inside the computation, so the three spellings compute equal
collections — but they are memoized under three pairwise-distinct cache
keys (no normalization happens before cache lookup). -/
theorem depth_spellings_equal_results_distinct_keys (octopus : Option OctopusDocument) :
    computeFlattenedLayers octopus ⟨none⟩ = computeFlattenedLayers octopus ⟨some (.num 0)⟩ ∧
    computeFlattenedLayers octopus ⟨none⟩ = computeFlattenedLayers octopus ⟨some .inf⟩ ∧
    shallowEqualArrays (encodeCall none) (encodeCall (some ⟨none⟩)) 2 = false ∧
    shallowEqualArrays (encodeCall (some ⟨none⟩)) (encodeCall (some ⟨some (.num 0)⟩)) 2 = false ∧
    shallowEqualArrays (encodeCall (some ⟨some (.num 0)⟩)) (encodeCall (some ⟨some .inf⟩)) 2 = false :=
  ⟨rfl, rfl, rfl, rfl, rfl⟩

/-- Modelled from the spec: the `Design` root aggregate (its class is not
among the sources) owns the artboards (insertion order preserved) and the
page table. -/
structure Design : Type where
  artboards : List Artboard
  pages : List (String × Option String)

/-- Modelled from the spec: `Design.getArtboardById` is an identity lookup
over the design's artboards returning not-found as an empty result. -/
def Design.getArtboardById (d : Design) (artboardId : String) : Option Artboard :=
  d.artboards.find? (fun a => a.id == artboardId)

/-- Modelled from the spec: `Design.getArtboardByComponentId` looks an
artboard up by its (truthy) component id. -/
def Design.getArtboardByComponentId (d : Design) (componentId : String) : Option Artboard :=
  d.artboards.find? (fun a => a.componentId == some componentId)

/-- `Page.getArtboardById`: the design-level lookup, filtered to `null`
unless the artboard's `pageId` equals this page's id. -/
def Page.getArtboardById (d : Design) (pageId : String) (artboardId : String) :
    Option Artboard :=
  match d.getArtboardById artboardId with
  | none => none
  | some a => if a.pageId ≠ some pageId then none else some a

/-- `Page.addArtboard`: resolves the artboard through the page-scoped
`getArtboardById`, throws `'Artboard not found'` when that yields `null`,
and otherwise calls `artboard.setPage(this.id)` (modelled as updating the
artboard inside the owning design's registry). -/
def Page.addArtboard (d : Design) (pageId : String) (artboardId : String) :
    Except String Design :=
  match Page.getArtboardById d pageId artboardId with
  | none => .error "Artboard not found"
  | some _ =>
    .ok { d with artboards := d.artboards.map (fun a =>
      if a.id == artboardId then a.setPage (some d.pages) pageId else a) }

def designBug : Design :=
  { artboards := [{ manifest := ⟨"a", some "Board A", false, none, none, none, false, none, none⟩ }]
    pages := [("p1", some "Page 1")] }

/-- C1 (code bug): in a design that does contain an artboard with id `"a"`
(currently assigned to no page), `page("p1").addArtboard("a")` throws
`'Artboard not found'` instead of assigning the artboard to the page,
because `Page.addArtboard` resolves the id through the page-scoped
`getArtboardById`, which returns `null` for every artboard whose `pageId`
is not already this page's id. -/
theorem addArtboard_rejects_existing_artboard :
    Page.addArtboard designBug "p1" "a" = .error "Artboard not found" ∧
    (designBug.getArtboardById "a").isSome = true :=
  ⟨rfl, rfl⟩

/-- A constructed `Layer`'s owning-artboard back-reference; the artboard's
own back-reference to its owning design is carried alongside (the registry
view of `this._artboard` / `artboard.getDesign()`). -/
structure ArtboardRef : Type where
  st : Artboard
  design : Option Design := none

/-- A standalone `Layer` object: its octopus data, its `parentLayerId`
(`none` for root layers) and its owning artboard (`none` when detached). -/
structure Layer : Type where
  octopus : LayerData
  parentLayerId : Option String := none
  artboard : Option ArtboardRef := none

def Layer.id (l : Layer) : String :=
  l.octopus.id

/-- `Layer._getDirectlyNestedLayers`: one layer per directly nested layer
datum, with `parentLayerId` set to this layer's id
(`createLayers(nestedLayerDataList, { parentLayerId: this.id, ... })`). -/
def directlyNestedLayers (l : LayerData) : List FlatLayer :=
  l.layers.map (fun c => ⟨1, some l.id, c⟩)

/-- Modelled from the spec: `LayerCollection.flatten({depth?})` (the
collection class is not among the sources) returns every explicitly
included layer and its nested layers down to `depth` further levels, in
document order; its depth option is normalized JS-style
(`depth || Infinity`, so `0`/unset mean unlimited). -/
def LayerCollection.flatten (coll : List FlatLayer) (options : DepthOptions) :
    List FlatLayer :=
  let depth := jsOrDepth options.depth .inf
  coll.flatMap (fun e => flattenTo depth.inc e.level e.parentLayerId e.data)

/-- `Layer.getNestedLayers({depth?})`: the depth option defaults to `1`
(`options.depth || 1`, so unset and `0` both mean `1`); at depth 1 the
directly nested layers are returned, otherwise they are flattened
`depth - 1` further levels.  (The source memoizes this accessor; the model
is the pure computation every call returns.) -/
def Layer.getNestedLayers (l : Layer) (options : DepthOptions) : List FlatLayer :=
  let depth := jsOrDepth options.depth (.num 1)
  let nestedLayers := directlyNestedLayers l.octopus
  if depth = .num 1 then nestedLayers
  else LayerCollection.flatten nestedLayers ⟨some depth.dec⟩

def layerNested : Layer :=
  { octopus := .mk "a" none none [] [.mk "b" none none [] [.mk "cc" none none [] []]] }

/-- C3 counterexample: for a layer with one child that itself has one
child, `getNestedLayers()` and `getNestedLayers({depth: 0})` return only
the one direct child, while `getNestedLayers({depth: Infinity})` returns
both nested layers — the three spellings are not the same collection. -/
theorem getNestedLayers_spellings_differ :
    (layerNested.getNestedLayers ⟨none⟩).length = 1 ∧
    (layerNested.getNestedLayers ⟨some (.num 0)⟩).length = 1 ∧
    (layerNested.getNestedLayers ⟨some .inf⟩).length = 2 :=
  ⟨rfl, rfl, rfl⟩

theorem flatten_direct_inf (lid : String) (cs : List LayerData) :
    LayerCollection.flatten (cs.map (fun c => ⟨1, some lid, c⟩)) ⟨some .inf⟩ =
      flattenToList .inf 1 (some lid) cs := by
  induction cs with
  | nil => rfl
  | cons c cs ih =>
    simp only [List.map_cons, LayerCollection.flatten, List.flatMap_cons] at ih ⊢
    rw [ih]
    rfl

/-- C3 as amended: `getNestedLayers` with depth unset or `0` defaults the
depth to `1` and returns exactly the directly nested layers, while
`{depth: Infinity}` returns the full nested expansion at every level —
unset and `0` agree with each other but not with `Infinity`. -/
theorem getNestedLayers_depth_semantics (l : Layer) :
    l.getNestedLayers ⟨none⟩ = directlyNestedLayers l.octopus ∧
    l.getNestedLayers ⟨some (.num 0)⟩ = directlyNestedLayers l.octopus ∧
    l.getNestedLayers ⟨some (.num 1)⟩ = directlyNestedLayers l.octopus ∧
    l.getNestedLayers ⟨some .inf⟩ =
      flattenToList .inf 1 (some l.octopus.id) l.octopus.layers :=
  ⟨rfl, rfl, rfl, flatten_direct_inf l.octopus.id l.octopus.layers⟩

/-- `Layer.getComponentArtboard()`: a graceful nothing when the layer
carries neither a (truthy) `documentId` nor a (truthy) `symbolID`
reference; otherwise a fatal error when the layer has no owning artboard or
the artboard no owning design; otherwise the design lookup by artboard id
(preferred) or by component id, which itself yields nothing on no match. -/
def Layer.getComponentArtboard (l : Layer) : Except String (Option Artboard) :=
  let componentArtboardId := l.octopus.documentId
  let componentId := l.octopus.symbolID
  if !(jsTruthyStr componentArtboardId) && !(jsTruthyStr componentId) then .ok none
  else
    match l.artboard with
    | none => .error "Cannot retrieve detached layer component artboard info"
    | some ab =>
      match ab.design with
      | none => .error "Cannot retrieve detached artboard layer component artboard info"
      | some design =>
        .ok (match jsOrNullStr componentArtboardId with
          | some aid => design.getArtboardById aid
          | none =>
            match jsOrNullStr componentId with
            | some cid => design.getArtboardByComponentId cid
            | none => none)

/-- C6: `getComponentArtboard()` yields nothing (without error) when the
layer carries no artboard-id or component-id reference; with a reference it
raises a fatal error exactly when the layer is detached from an artboard or
the artboard from a design, and otherwise returns the design's artboard-id
lookup (preferred) or component-id lookup — each of which is a nothing
result when the design has no matching artboard. -/
theorem getComponentArtboard_resolution (l : Layer) :
    (jsTruthyStr l.octopus.documentId = false ∧ jsTruthyStr l.octopus.symbolID = false →
      l.getComponentArtboard = .ok none) ∧
    ((jsTruthyStr l.octopus.documentId = true ∨ jsTruthyStr l.octopus.symbolID = true) →
      (l.artboard = none →
        l.getComponentArtboard = .error "Cannot retrieve detached layer component artboard info") ∧
      (∀ ab : ArtboardRef, l.artboard = some ab → ab.design = none →
        l.getComponentArtboard = .error "Cannot retrieve detached artboard layer component artboard info") ∧
      (∀ (ab : ArtboardRef) (d : Design) (aid : String), l.artboard = some ab →
        ab.design = some d → jsOrNullStr l.octopus.documentId = some aid →
        l.getComponentArtboard = .ok (d.getArtboardById aid)) ∧
      (∀ (ab : ArtboardRef) (d : Design) (cid : String), l.artboard = some ab →
        ab.design = some d → jsOrNullStr l.octopus.documentId = none →
        jsOrNullStr l.octopus.symbolID = some cid →
        l.getComponentArtboard = .ok (d.getArtboardByComponentId cid))) := by
  constructor
  · rintro ⟨h1, h2⟩
    unfold Layer.getComponentArtboard
    simp [h1, h2]
  · intro hor
    have hcond : (!(jsTruthyStr l.octopus.documentId) &&
        !(jsTruthyStr l.octopus.symbolID)) = false := by
      rcases hor with h | h <;> simp [h]
    refine ⟨?_, ?_, ?_, ?_⟩
    · intro hab
      unfold Layer.getComponentArtboard
      simp [hcond, hab]
    · intro ab hab hd
      unfold Layer.getComponentArtboard
      simp [hcond, hab, hd]
    · intro ab d aid hab hd haid
      unfold Layer.getComponentArtboard
      simp [hcond, hab, hd, haid]
    · intro ab d cid hab hd haid hcid
      unfold Layer.getComponentArtboard
      simp [hcond, hab, hd, haid, hcid]

def layerDetachedRef : Layer :=
  { octopus := .mk "x" (some "s1") none [] [] }

def layerWithComponentRef : Layer :=
  { octopus := .mk "y" none (some "a") [] []
    artboard := some { st := artboardW, design := some designBug } }

def layerNoRef : Layer :=
  { octopus := .mk "z" none none [] [] }

/-- Witness for C6 at concrete layers: a detached layer with a component
reference errors, an attached one resolves through the design's artboard-id
lookup, and a layer with no reference yields nothing without error. -/
theorem getComponentArtboard_resolution_witness :
    layerDetachedRef.getComponentArtboard =
      .error "Cannot retrieve detached layer component artboard info" ∧
    layerWithComponentRef.getComponentArtboard =
      .ok (designBug.getArtboardById "a") ∧
    (designBug.getArtboardById "a").isSome = true ∧
    layerNoRef.getComponentArtboard = .ok none :=
  ⟨((getComponentArtboard_resolution layerDetachedRef).2 (Or.inr rfl)).1 rfl,
   ((getComponentArtboard_resolution layerWithComponentRef).2 (Or.inl rfl)).2.2.1
     ⟨artboardW, some designBug⟩ designBug "a" rfl rfl rfl,
   rfl,
   (getComponentArtboard_resolution layerNoRef).1 ⟨rfl, rfl⟩⟩

/-- An aggregated bitmap asset descriptor: the asset's identity (its key)
and the ids of the layers referencing it. -/
structure AggregatedBitmapAssetDescriptor : Type where
  name : String
  layerIds : List String
deriving DecidableEq

/-- Modelled from the spec: one merge step of
`keepUniqueBitmapAssetDescriptors` (assets-utils, not among the sources):
a descriptor whose asset identity is already present is folded into the
existing entry by unioning the referencing layer ids; otherwise it is
appended. -/
def mergeBitmapAssetDescriptor (acc : List AggregatedBitmapAssetDescriptor)
    (d : AggregatedBitmapAssetDescriptor) : List AggregatedBitmapAssetDescriptor :=
  if acc.any (fun e => e.name == d.name) then
    acc.map (fun e =>
      if e.name == d.name then
        ⟨e.name, e.layerIds ++ d.layerIds.filter (fun i => !(e.layerIds.contains i))⟩
      else e)
  else acc ++ [d]

/-- Modelled from the spec: `keepUniqueBitmapAssetDescriptors` deduplicates
by asset identity while unioning the layer-id sets, in first-occurrence
order. -/
def keepUniqueBitmapAssetDescriptors
    (descs : List AggregatedBitmapAssetDescriptor) :
    List AggregatedBitmapAssetDescriptor :=
  descs.foldl mergeBitmapAssetDescriptor []

mutual

/-- `Layer.getBitmapAssets` at an already-normalized depth: the layer's own
descriptors (modelled from the spec: `getLayerBitmapAssets` yields one
descriptor per asset key the layer itself references, tagged with the
layer's id) plus — unless the remaining depth is 1 — the nested layers'
aggregated descriptors with `depth - 1`, all passed through
`keepUniqueBitmapAssetDescriptors`. -/
def layerBitmapAssetsAt (depth : JsDepth) :
    LayerData → List AggregatedBitmapAssetDescriptor
  | .mk i _ _ b children =>
    keepUniqueBitmapAssetDescriptors
      ((b.map (fun key => ⟨key, [i]⟩)) ++
        (if depth = .num 1 then [] else layerListBitmapAssetsAt depth.dec children))

/-- The `flatMap` over the directly nested layers. -/
def layerListBitmapAssetsAt (depth : JsDepth) :
    List LayerData → List AggregatedBitmapAssetDescriptor
  | [] => []
  | c :: cs => layerBitmapAssetsAt depth c ++ layerListBitmapAssetsAt depth cs

end

/-- The pre-dedup concatenation
`[...layerBitmapAssetDescs, ...nestedLayerBitmapAssetDescs]` that
`Layer.getBitmapAssets` hands to `keepUniqueBitmapAssetDescriptors`. -/
def layerRawBitmapAssets (depth : JsDepth) (l : LayerData) :
    List AggregatedBitmapAssetDescriptor :=
  (l.bitmaps.map (fun key => ⟨key, [l.id]⟩)) ++
    (if depth = .num 1 then [] else layerListBitmapAssetsAt depth.dec l.layers)

/-- `Layer.getBitmapAssets({depth?, ...})` (depth normalized by
`options.depth || Infinity`). -/
def Layer.getBitmapAssets (l : Layer) (options : DepthOptions) :
    List AggregatedBitmapAssetDescriptor :=
  layerBitmapAssetsAt (jsOrDepth options.depth .inf) l.octopus

theorem layerBitmapAssetsAt_eq (depth : JsDepth) (l : LayerData) :
    layerBitmapAssetsAt depth l =
      keepUniqueBitmapAssetDescriptors (layerRawBitmapAssets depth l) := by
  cases l
  rfl

/-- Some descriptor in the list carries asset `n` referenced by layer `i`. -/
def HasPair (descs : List AggregatedBitmapAssetDescriptor) (n i : String) : Prop :=
  ∃ d ∈ descs, d.name = n ∧ i ∈ d.layerIds

instance (descs : List AggregatedBitmapAssetDescriptor) (n i : String) :
    Decidable (HasPair descs n i) :=
  List.decidableBEx _ descs

theorem merge_names_nodup (acc : List AggregatedBitmapAssetDescriptor)
    (d : AggregatedBitmapAssetDescriptor)
    (h : (acc.map (·.name)).Nodup) :
    ((mergeBitmapAssetDescriptor acc d).map (·.name)).Nodup := by
  unfold mergeBitmapAssetDescriptor
  by_cases hany : acc.any (fun e => e.name == d.name) = true
  · rw [if_pos hany, List.map_map]
    have hsame : acc.map ((fun e : AggregatedBitmapAssetDescriptor => e.name) ∘ (fun e =>
        if e.name == d.name then
          (⟨e.name, e.layerIds ++ d.layerIds.filter (fun i => !(e.layerIds.contains i))⟩ :
            AggregatedBitmapAssetDescriptor)
        else e)) = acc.map (·.name) := by
      apply List.map_congr_left
      intro e _
      by_cases hn : e.name = d.name <;> simp [hn]
    rw [hsame]
    exact h
  · rw [if_neg hany, List.map_append]
    rw [List.nodup_append]
    refine ⟨h, List.nodup_singleton _, ?_⟩
    intro x hx hy
    simp only [List.map_cons, List.map_nil, List.mem_singleton] at hy
    obtain ⟨e, he, hex⟩ := List.mem_map.mp hx
    have hall : ∀ e ∈ acc, ¬(e.name == d.name) = true := by
      simpa [List.any_eq_true] using hany
    exact hall e he (by simp [hex, hy])


theorem foldl_merge_names_nodup (descs acc : List AggregatedBitmapAssetDescriptor)
    (h : (acc.map (·.name)).Nodup) :
    ((descs.foldl mergeBitmapAssetDescriptor acc).map (·.name)).Nodup := by
  induction descs generalizing acc with
  | nil => exact h
  | cons d ds ih => exact ih _ (merge_names_nodup acc d h)

theorem keepUnique_names_nodup (descs : List AggregatedBitmapAssetDescriptor) :
    ((keepUniqueBitmapAssetDescriptors descs).map (·.name)).Nodup :=
  foldl_merge_names_nodup descs [] (by simp)

theorem hasPair_merge_left (acc : List AggregatedBitmapAssetDescriptor)
    (d : AggregatedBitmapAssetDescriptor) (n i : String)
    (h : HasPair acc n i) : HasPair (mergeBitmapAssetDescriptor acc d) n i := by
  obtain ⟨e, he, hn, hi⟩ := h
  unfold mergeBitmapAssetDescriptor
  by_cases hany : acc.any (fun e => e.name == d.name) = true
  · rw [if_pos hany]
    refine ⟨(fun e => if e.name == d.name then
        (⟨e.name, e.layerIds ++ d.layerIds.filter (fun i => !(e.layerIds.contains i))⟩ :
          AggregatedBitmapAssetDescriptor)
      else e) e, List.mem_map_of_mem _ he, ?_⟩
    by_cases hed : e.name == d.name
    · simp only [if_pos hed]
      exact ⟨hn, List.mem_append_left _ hi⟩
    · simp only [if_neg hed]
      exact ⟨hn, hi⟩
  · rw [if_neg hany]
    exact ⟨e, List.mem_append_left _ he, hn, hi⟩

theorem hasPair_merge_new (acc : List AggregatedBitmapAssetDescriptor)
    (d : AggregatedBitmapAssetDescriptor) (n i : String)
    (hn : d.name = n) (hi : i ∈ d.layerIds) :
    HasPair (mergeBitmapAssetDescriptor acc d) n i := by
  unfold mergeBitmapAssetDescriptor
  by_cases hany : acc.any (fun e => e.name == d.name) = true
  · rw [if_pos hany]
    rw [List.any_eq_true] at hany
    obtain ⟨e, he, hed⟩ := hany
    refine ⟨(fun e => if e.name == d.name then
        (⟨e.name, e.layerIds ++ d.layerIds.filter (fun i => !(e.layerIds.contains i))⟩ :
          AggregatedBitmapAssetDescriptor)
      else e) e, List.mem_map_of_mem _ he, ?_⟩
    simp only [if_pos hed]
    refine ⟨by rw [← hn]; exact (by simpa using hed), ?_⟩
    by_cases hmem : i ∈ e.layerIds
    · exact List.mem_append_left _ hmem
    · refine List.mem_append_right _ ?_
      rw [List.mem_filter]
      refine ⟨hi, ?_⟩
      simp [List.contains, hmem]
  · rw [if_neg hany]
    exact ⟨d, List.mem_append_right _ (List.mem_singleton.mpr rfl), hn, hi⟩

theorem hasPair_foldl (descs acc : List AggregatedBitmapAssetDescriptor) (n i : String)
    (h : HasPair acc n i ∨ HasPair descs n i) :
    HasPair (descs.foldl mergeBitmapAssetDescriptor acc) n i := by
  induction descs generalizing acc with
  | nil =>
    rcases h with h | h
    · exact h
    · obtain ⟨d, hd, -⟩ := h
      exact absurd hd (List.not_mem_nil d)
  | cons d ds ih =>
    apply ih
    rcases h with h | h
    · exact Or.inl (hasPair_merge_left acc d n i h)
    · obtain ⟨e, he, hn, hi⟩ := h
      rcases List.mem_cons.mp he with he | he
      · exact Or.inl (hasPair_merge_new acc d n i (he ▸ hn) (he ▸ hi))
      · exact Or.inr ⟨e, he, hn, hi⟩

theorem hasPair_keepUnique (descs : List AggregatedBitmapAssetDescriptor) (n i : String)
    (h : HasPair descs n i) :
    HasPair (keepUniqueBitmapAssetDescriptors descs) n i :=
  hasPair_foldl descs [] n i (Or.inr h)

/-- C9: `getBitmapAssets` deduplicates by asset identity and unions the
referencing layer ids: its output never carries two descriptors with the
same asset name, and whenever the aggregation's raw descriptor list carries
asset `n` referenced by layer `i1` and also by layer `i2`, the output holds
exactly one descriptor for `n` and it contains both layer ids. -/
theorem getBitmapAssets_dedup_unions (l : Layer) (options : DepthOptions)
    (n i1 i2 : String)
    (h1 : HasPair (layerRawBitmapAssets (jsOrDepth options.depth .inf) l.octopus) n i1)
    (h2 : HasPair (layerRawBitmapAssets (jsOrDepth options.depth .inf) l.octopus) n i2) :
    ((l.getBitmapAssets options).map (·.name)).Nodup ∧
    ∃ d ∈ l.getBitmapAssets options, d.name = n ∧ i1 ∈ d.layerIds ∧ i2 ∈ d.layerIds ∧
      ∀ e ∈ l.getBitmapAssets options, e.name = n → e = d := by
  have heq : l.getBitmapAssets options =
      keepUniqueBitmapAssetDescriptors
        (layerRawBitmapAssets (jsOrDepth options.depth .inf) l.octopus) :=
    layerBitmapAssetsAt_eq _ _
  rw [heq]
  have hnodup := keepUnique_names_nodup
    (layerRawBitmapAssets (jsOrDepth options.depth .inf) l.octopus)
  refine ⟨hnodup, ?_⟩
  obtain ⟨d1, hd1, hn1, hi1⟩ := hasPair_keepUnique _ n i1 h1
  obtain ⟨d2, hd2, hn2, hi2⟩ := hasPair_keepUnique _ n i2 h2
  have h12 : d1 = d2 :=
    List.inj_on_of_nodup_map hnodup hd1 hd2 (hn1.trans hn2.symm)
  refine ⟨d1, hd1, hn1, hi1, h12 ▸ hi2, ?_⟩
  intro e he hen
  exact List.inj_on_of_nodup_map hnodup he hd1 (hen.trans hn1.symm)

def layerTwoKids : Layer :=
  { octopus := .mk "p" none none []
      [.mk "u" none none ["k"] [], .mk "vv" none none ["k"] []] }

/-- Witness for C9: two sibling layers referencing the same bitmap asset
key produce one aggregated descriptor whose layer-id set contains both
ids. -/
theorem getBitmapAssets_dedup_unions_witness :
    ∃ d ∈ layerTwoKids.getBitmapAssets ⟨none⟩,
      d.name = "k" ∧ "u" ∈ d.layerIds ∧ "vv" ∈ d.layerIds := by
  obtain ⟨-, d, hd, hn, hu, hv, -⟩ :=
    getBitmapAssets_dedup_unions layerTwoKids ⟨none⟩ "k" "u" "vv"
      (by decide) (by decide)
  exact ⟨d, hd, hn, hu, hv⟩

/-- The unlimited-depth flattened collection of an artboard: what
`getFlattenedLayers()` computes (no argument, depth normalized to
`Infinity`; `getLayerById` and hence the depth operations read through this
collection). -/
def Artboard.flattenedAll (a : Artboard) : List FlatLayer :=
  flattenToList .inf 1 none (layersOf a.octopus)

/-- Modelled from the spec: `LayerCollection.getLayerById` (the collection
class is not among the sources) is an identity lookup — the first layer of
the collection carrying the id. -/
def Artboard.getLayerByIdFlat (a : Artboard) (layerId : String) : Option FlatLayer :=
  a.flattenedAll.find? (fun e => e.data.id == layerId)

/-- The mutual recursion of `Layer.getDepth` / `Artboard.getLayerDepth`:
starting from a `parentLayerId`, each step resolves the parent by id over
the flattened collection and adds one.  The fuel argument only bounds the
recursion for Lean; the sufficiency lemmas below show that
`layers.length + 1` is never exhausted on a flattened collection, matching
the unbounded recursion of the source. -/
def depthChain (layers : List FlatLayer) : Nat → Option String → Except String Nat
  | _, none => .ok 1
  | 0, some _ => .error "recursion limit"
  | fuel + 1, some pid =>
    match layers.find? (fun e => e.data.id == pid) with
    | none => .error "Cannot determine parent layer depth"
    | some parent => (depthChain layers fuel parent.parentLayerId).map (fun n => 1 + n)

/-- `Artboard.getLayerDepth(layerId)`: nothing when no layer carries the
id, otherwise the found layer's `getDepth()`. -/
def Artboard.getLayerDepth (a : Artboard) (layerId : String) : Except String (Option Nat) :=
  match a.getLayerByIdFlat layerId with
  | none => .ok none
  | some e =>
    (depthChain a.flattenedAll (a.flattenedAll.length + 1) e.parentLayerId).map some

/-- `Layer.getDepth()`: 1 for root layers; a fatal error on a detached
non-root layer; otherwise 1 plus the parent layer's depth resolved through
the owning artboard. -/
def Layer.getDepth (l : Layer) : Except String Nat :=
  match l.parentLayerId with
  | none => .ok 1
  | some pid =>
    match l.artboard with
    | none => .error "Cannot determine detached layer depth"
    | some ab =>
      match ab.st.getLayerDepth pid with
      | .error e => .error e
      | .ok none => .error "Cannot determine parent layer depth"
      | .ok (some parentLayerDepth) => .ok (1 + parentLayerDepth)

theorem getDepth_attached (dta : LayerData) (pid : String) (ab : ArtboardRef) :
    Layer.getDepth ⟨dta, some pid, some ab⟩ =
      match ab.st.getLayerDepth pid with
      | .error e => .error e
      | .ok none => .error "Cannot determine parent layer depth"
      | .ok (some parentLayerDepth) => .ok (1 + parentLayerDepth) := rfl

theorem flattenTo_inf_eq (lv : Nat) (pr : Option String) (i : String)
    (s d : Option String) (b : List String) (ch : List LayerData) :
    flattenTo .inf lv pr (.mk i s d b ch) =
      ⟨lv, pr, .mk i s d b ch⟩ :: flattenToList .inf (lv + 1) (some i) ch := rfl

theorem flattenToList_cons_eq (dep : JsDepth) (lv : Nat) (pr : Option String)
    (c : LayerData) (cs : List LayerData) :
    flattenToList dep lv pr (c :: cs) =
      flattenTo dep lv pr c ++ flattenToList dep lv pr cs := rfl

/-- Structure of an unlimited-depth flattened list: every element's level
is at least the start level and bounded by the list length, and every
element is either a top entry (level = start, parent = ambient parent) or
has its creating parent inside the same list, one level up. -/
theorem flattenToList_structure : ∀ (cs : List LayerData) (lv : Nat) (pr : Option String)
    (e : FlatLayer), e ∈ flattenToList .inf lv pr cs →
    lv ≤ e.level ∧ e.level < lv + (flattenToList .inf lv pr cs).length ∧
    ((e.level = lv ∧ e.parentLayerId = pr) ∨
      ∃ eP ∈ flattenToList .inf lv pr cs,
        e.parentLayerId = some eP.data.id ∧ eP.level + 1 = e.level)
  | [], lv, pr, e, h => by simp [flattenToList] at h
  | .mk i s d b ch :: cs', lv, pr, e, h => by
    rw [flattenToList_cons_eq, flattenTo_inf_eq, List.cons_append] at h ⊢
    rcases List.mem_cons.mp h with rfl | h2
    · refine ⟨le_refl _, ?_, Or.inl ⟨rfl, rfl⟩⟩
      simp only [List.length_cons, List.length_append]
      omega
    · rcases List.mem_append.mp h2 with hin | hrest
      · have ihh := flattenToList_structure ch (lv + 1) (some i) e hin
        refine ⟨by omega, ?_, ?_⟩
        · have hb := ihh.2.1
          simp only [List.length_cons, List.length_append] at hb ⊢
          omega
        · rcases ihh.2.2 with ⟨hl, hpr⟩ | ⟨eP, hePm, hpid, hlev⟩
          · refine Or.inr ⟨⟨lv, pr, .mk i s d b ch⟩, List.mem_cons_self _ _, ?_, ?_⟩
            · exact hpr
            · simp [hl]
          · exact Or.inr
              ⟨eP, List.mem_cons_of_mem _ (List.mem_append_left _ hePm), hpid, hlev⟩
      · have ihh := flattenToList_structure cs' lv pr e hrest
        refine ⟨ihh.1, ?_, ?_⟩
        · have hb := ihh.2.1
          simp only [List.length_cons, List.length_append] at hb ⊢
          omega
        · rcases ihh.2.2 with hroot | ⟨eP, hePm, hpid, hlev⟩
          · exact Or.inl hroot
          · exact Or.inr
              ⟨eP, List.mem_cons_of_mem _ (List.mem_append_right _ hePm), hpid, hlev⟩
termination_by cs => sizeOf cs

/-- Parent-link well-formedness of a flattened collection: levels start at
1, root entries have level 1, and every non-root entry's parent is present
one level up. -/
def ChainInv (L : List FlatLayer) : Prop :=
  ∀ e ∈ L, 1 ≤ e.level ∧ (e.parentLayerId = none → e.level = 1) ∧
    ∀ p, e.parentLayerId = some p → ∃ eP ∈ L, eP.data.id = p ∧ eP.level + 1 = e.level

theorem flattenedAll_chainInv (a : Artboard) : ChainInv a.flattenedAll := by
  intro e he
  have h := flattenToList_structure (layersOf a.octopus) 1 none e he
  refine ⟨h.1, ?_, ?_⟩
  · intro hp
    rcases h.2.2 with ⟨hl, _⟩ | ⟨eP, _, hpp, _⟩
    · exact hl
    · rw [hp] at hpp
      exact Option.noConfusion hpp
  · intro p hp
    rcases h.2.2 with ⟨_, hpr⟩ | ⟨eP, hePm, hpp, hlev⟩
    · rw [hp] at hpr
      exact Option.noConfusion hpr
    · rw [hp] at hpp
      injection hpp with hid
      exact ⟨eP, hePm, hid.symm, hlev⟩

theorem find?_eq_of_nodup (L : List FlatLayer) (e : FlatLayer)
    (hnd : (L.map (fun x => x.data.id)).Nodup) (he : e ∈ L) :
    L.find? (fun x => x.data.id == e.data.id) = some e := by
  induction L with
  | nil => cases he
  | cons hd tl ih =>
    rw [List.map_cons, List.nodup_cons] at hnd
    obtain ⟨hnotin, hnd2⟩ := hnd
    by_cases hh : (hd.data.id == e.data.id) = true
    · have heq : hd = e := by
        rcases List.mem_cons.mp he with rfl | hetl
        · rfl
        · exfalso
          have hide : hd.data.id = e.data.id := by simpa using hh
          exact hnotin (hide ▸ List.mem_map_of_mem _ hetl)
      subst heq
      simp only [List.find?, hh]
    · have hh2 : (hd.data.id == e.data.id) = false := by simpa using hh
      have hetl : e ∈ tl := by
        rcases List.mem_cons.mp he with rfl | hetl
        · exact absurd (by simp) hh
        · exact hetl
      simp only [List.find?, hh2]
      exact ih hnd2 hetl

/-- The parent-chain walk computes exactly the recorded level of any member
of a well-formed flattened collection with unique ids, for any sufficient
fuel. -/
theorem depthChain_correct (L : List FlatLayer)
    (hinv : ChainInv L) (hnd : (L.map (fun x => x.data.id)).Nodup) :
    ∀ (fuel : Nat) (e : FlatLayer), e ∈ L → e.level ≤ fuel + 1 →
      depthChain L fuel e.parentLayerId = .ok e.level := by
  intro fuel
  induction fuel with
  | zero =>
    intro e he hlev
    obtain ⟨hpos, hroot, hpar⟩ := hinv e he
    cases hp : e.parentLayerId with
    | none =>
      rw [hroot hp]
      rfl
    | some p =>
      obtain ⟨eP, hePm, _, hlev2⟩ := hpar p hp
      have hpos2 := (hinv eP hePm).1
      exact absurd hlev (by omega)
  | succ f ih =>
    intro e he hlev
    cases hp : e.parentLayerId with
    | none =>
      rw [(hinv e he).2.1 hp]
      rfl
    | some p =>
      obtain ⟨eP, hePm, hid, hlev2⟩ := (hinv e he).2.2 p hp
      have hfind : L.find? (fun x => x.data.id == p) = some eP := by
        have hf := find?_eq_of_nodup L eP hnd hePm
        rw [hid] at hf
        exact hf
      have hchain := ih eP hePm (by omega)
      simp only [depthChain, hfind, hchain, Except.map]
      exact congrArg Except.ok (by omega)

theorem getLayerDepth_absent (a : Artboard) (lid : String)
    (h : a.getLayerByIdFlat lid = none) : a.getLayerDepth lid = .ok none := by
  unfold Artboard.getLayerDepth
  rw [h]

theorem getLayerDepth_level (a : Artboard)
    (hnd : (a.flattenedAll.map (fun x => x.data.id)).Nodup)
    (lid : String) (e : FlatLayer) (h : a.getLayerByIdFlat lid = some e) :
    a.getLayerDepth lid = .ok (some e.level) := by
  unfold Artboard.getLayerDepth
  rw [h]
  have he : e ∈ a.flattenedAll := by
    unfold Artboard.getLayerByIdFlat at h
    exact List.mem_of_find?_eq_some h
  have hb := (flattenToList_structure (layersOf a.octopus) 1 none e he).2.1
  have hchain := depthChain_correct a.flattenedAll (flattenedAll_chainInv a) hnd
    (a.flattenedAll.length + 1) e he (by
      have : (flattenToList JsDepth.inf 1 none (layersOf a.octopus)).length =
          a.flattenedAll.length := rfl
      omega)
  show Except.map some
      (depthChain a.flattenedAll (a.flattenedAll.length + 1) e.parentLayerId) =
    Except.ok (some e.level)
  rw [hchain]
  rfl

/-- C7: `getDepth()` is 1 for a layer with no parent layer id, a fatal
error on a detached non-root layer, and `1 + parent depth` on an attached
layer; `Artboard.getLayerDepth(id)` is nothing when no layer carries the id
and otherwise the 1-based structural nesting level at which the flattened
collection created the layer (for content whose layer ids are unique). -/
theorem getDepth_one_based (a : Artboard)
    (hnd : (a.flattenedAll.map (fun x => x.data.id)).Nodup) :
    (∀ l : Layer, l.parentLayerId = none → Layer.getDepth l = .ok 1) ∧
    (∀ (dta : LayerData) (pid : String),
      Layer.getDepth ⟨dta, some pid, none⟩ =
        .error "Cannot determine detached layer depth") ∧
    (∀ lid : String, a.getLayerByIdFlat lid = none → a.getLayerDepth lid = .ok none) ∧
    (∀ (lid : String) (e : FlatLayer), a.getLayerByIdFlat lid = some e →
      a.getLayerDepth lid = .ok (some e.level)) ∧
    (∀ (dsg : Option Design) (dta : LayerData) (pid : String) (e : FlatLayer),
      a.getLayerByIdFlat pid = some e →
      Layer.getDepth ⟨dta, some pid, some ⟨a, dsg⟩⟩ = .ok (1 + e.level)) := by
  refine ⟨?_, ?_, ?_, ?_, ?_⟩
  · intro l hp
    unfold Layer.getDepth
    rw [hp]
  · intro dta pid
    rfl
  · intro lid h
    exact getLayerDepth_absent a lid h
  · intro lid e h
    exact getLayerDepth_level a hnd lid e h
  · intro dsg dta pid e h
    rw [getDepth_attached, getLayerDepth_level a hnd pid e h]

def artboardDeep : Artboard :=
  { manifest := manifestW "d1"
    octopus := some ⟨none,
      [.mk "r" none none [] [.mk "m" none none [] [.mk "dd" none none [] []]]]⟩ }

/-- Witness for C7 on a three-level artboard: a root layer has depth 1, a
detached non-root layer errors, an absent id yields nothing, the doubly
nested layer has depth 3, and an attached layer whose parent sits at level 2
has depth 3. -/
theorem getDepth_one_based_witness :
    Layer.getDepth ⟨.mk "solo" none none [] [], none, none⟩ = .ok 1 ∧
    Layer.getDepth ⟨.mk "x" none none [] [], some "gone", none⟩ =
      .error "Cannot determine detached layer depth" ∧
    artboardDeep.getLayerDepth "missing" = .ok none ∧
    artboardDeep.getLayerDepth "dd" = .ok (some 3) ∧
    Layer.getDepth ⟨.mk "x" none none [] [], some "m", some ⟨artboardDeep, none⟩⟩ =
      .ok 3 := by
  have h := getDepth_one_based artboardDeep (by decide)
  exact ⟨h.1 ⟨.mk "solo" none none [] [], none, none⟩ rfl,
    h.2.1 (.mk "x" none none [] []) "gone",
    h.2.2.1 "missing" rfl,
    h.2.2.2.1 "dd" ⟨3, some "m", .mk "dd" none none [] []⟩ rfl,
    h.2.2.2.2 none (.mk "x" none none [] []) "m"
      ⟨2, some "r", .mk "m" none none [] [.mk "dd" none none [] []]⟩ rfl⟩

end OctopusReader
